import Mathlib

/-!
Shallow embedding of `src/main.py` (yoruboku/aidc-bot, "VITO" Discord -> Gemini bot).

Text is modelled as `List Char` (Python `str`); `str.lower()` as `lowerL`,
`str.strip()` as `stripL`, `"a" in b` as `<:+:` (infix of the char list),
`startswith` as `<+:`.  The Discord/Playwright collaborators are abstracted:
pages are numeric ids kept in an association list (`user_pages` dict,
insertion ordered), asyncio tasks are numeric ids, `running_tasks` is a
`Finset`.  Side effects (messages sent, pages closed/reloaded, tasks
cancelled, records enqueued) are collected in an `Effects` record instead of
being performed.  The texts of the fixed Discord messages are represented by
the constructors of `SentMsg`; answer/error payloads stay as char lists.
-/

namespace Vito

/-- Python `str.lower()` (`main.py` uses it on ASCII usernames and content). -/
def lowerL (l : List Char) : List Char := l.map Char.toLower

/-- Python `str.strip()`: drop whitespace from both ends. -/
def stripL (l : List Char) : List Char :=
  ((l.dropWhile Char.isWhitespace).reverse.dropWhile Char.isWhitespace).reverse

/-- Python `message.content.split(">", 1)[1]`: everything after the first `'>'`
(`main.py:378`).  Total with default `[]`; the call site is guarded by the
bot-mention check, which guarantees a `'>'` is present, so the default is
unreachable in the embedded control flow. -/
def afterFirstGt : List Char → List Char
  | [] => []
  | c :: cs => if c = '>' then cs else afterFirstGt cs

/-- Static configuration read from the environment (`main.py:34-51`):
the bot id used for the mention token, `PRIORITY_OWNER` (already lowercase)
and the normalized `owner_usernames` set (which the code seeds with the
priority owner, `main.py:51`). -/
structure Config where
  botId : List Char
  priorityOwner : List Char
  ownerUsernames : List (List Char)
  deriving DecidableEq

/-- The literal mention token `f"<@{BOT_ID}>"` (`main.py:374`). -/
def mentionTok (cfg : Config) : List Char := ('<' :: '@' :: cfg.botId) ++ ['>']

/-- An inbound Discord message, reduced to the fields `on_message` reads:
raw content, the author's global username (as chosen by
`extract_global_username`, before lowercasing), the author id, the result of
the guild-administrator lookup (`is_admin`), and whether the author is the
bot itself (`main.py:370`). -/
structure Msg where
  content : List Char
  uname : List Char
  authorId : Nat
  isAdmin : Bool
  fromSelf : Bool
  deriving DecidableEq

/-- A queued request record: the tuple
`(user_id, question, channel, thinking_msg, author_username)` put on
`task_queue` (`main.py:474,479`), without the opaque channel / placeholder
handles. -/
structure Record where
  actorId : Nat
  text : List Char
  uname : List Char
  deriving DecidableEq

/-- The module-level mutable state of `main.py:69-90`:
`task_queue`, `running_tasks`, `user_pages` (actor id -> page id),
`owner_lock`, `owner_active_task`, `owner_being_served_username`, `stop_flag`. -/
structure BotState where
  queue : List Record
  runningTasks : Finset Nat
  pages : List (Nat × Nat)
  ownerLock : Bool
  ownerActiveTask : Option Nat
  ownerServed : Option (List Char)
  stopFlag : Bool
  deriving DecidableEq

/-- The fixed Discord messages `on_message` can send, plus the worker's
outputs.  Constructor <-> literal: `stopIgnoredOwner` = "VITO is currently
answering a protected owner. Stop ignored." (`main.py:419`), `allStopped` =
"All tasks stopped." (451), `noPermission` = "You don't have permission to
stop ongoing tasks." (455), `newChatCreated` = "New chat created. Ask your
next question." (470), `thinkingFresh` = "Starting a fresh chat..." (473),
`thinking` = "Thinking..." (478), `chunk` = one `channel.send` of answer text
(331/333), `errorOut` = f"Error: {e}" (341). -/
inductive SentMsg where
  | stopIgnoredOwner
  | allStopped
  | noPermission
  | newChatCreated
  | thinkingFresh
  | thinking
  | chunk (txt : List Char)
  | errorOut (txt : List Char)
  deriving DecidableEq

/-- Accumulated side effects of one `on_message` invocation, in program
order within each kind. -/
structure Effects where
  sent : List SentMsg
  enqueued : List Record
  closedPages : List Nat
  reloadedPages : List Nat
  cancelled : Finset Nat
  deriving DecidableEq

def noEffects : Effects := ⟨[], [], [], [], ∅⟩

def Effects.app (a b : Effects) : Effects :=
  ⟨a.sent ++ b.sent, a.enqueued ++ b.enqueued, a.closedPages ++ b.closedPages,
   a.reloadedPages ++ b.reloadedPages, a.cancelled ∪ b.cancelled⟩

def sentOnly (s : SentMsg) : Effects := ⟨[s], [], [], [], ∅⟩

/-- State change of the priority-owner preemption path (`main.py:386-411`)
and of an authorized stop (`main.py:427-452`): the queue is drained with
`get_nowait`, and `stop_flag` is set `True` and back to `False` before the
handler returns, so it ends `false`. -/
def drainSt (st : BotState) : BotState := { st with queue := [], stopFlag := false }

/-- Effects of the priority-owner preemption path (`main.py:397-409`):
cancel every running task, reload every page.  Nothing is sent. -/
def preemptEff (st : BotState) : Effects :=
  ⟨[], [], [], st.pages.map Prod.snd, st.runningTasks⟩

/-- Effects of an authorized stop (`main.py:437-451`): cancel every running
task, reload every page, send "All tasks stopped.". -/
def stopEff (st : BotState) : Effects :=
  ⟨[SentMsg.allStopped], [], [], st.pages.map Prod.snd, st.runningTasks⟩

/-- State after the priority-owner preemption path: drained if the author is
`PRIORITY_OWNER` (`is_priority_owner`, which compares the lowercased global
username, `main.py:116-119`), otherwise unchanged. -/
def pstate (cfg : Config) (st : BotState) (m : Msg) : BotState :=
  if lowerL m.uname = cfg.priorityOwner then drainSt st else st

/-- Effects of the priority-owner preemption path (empty for other authors). -/
def peff (cfg : Config) (st : BotState) (m : Msg) : Effects :=
  if lowerL m.uname = cfg.priorityOwner then preemptEff st else noEffects

/-- State after `user_pages.pop(message.author.id, None)` plus closing the
popped page (`main.py:461-466`), on top of the preemption path. -/
def pagesReset (cfg : Config) (st : BotState) (m : Msg) : BotState :=
  { pstate cfg st m with
    pages := (pstate cfg st m).pages.filter (fun p => decide (p.1 ≠ m.authorId)) }

/-- The `newchat` branch (`main.py:459-475`): the author's page is popped and
closed unconditionally; `question = content_raw[len("newchat"):].strip()`;
if it is empty only a confirmation is sent, otherwise a "Starting a fresh
chat..." placeholder is sent and the question is enqueued for the author. -/
def newchatRes (cfg : Config) (st : BotState) (m : Msg) (contentRaw : List Char) :
    BotState × Effects :=
  if stripL (contentRaw.drop 7) = [] then
    (pagesReset cfg st m,
     (peff cfg st m).app
       ⟨[SentMsg.newChatCreated], [], ((pstate cfg st m).pages.lookup m.authorId).toList,
        [], ∅⟩)
  else
    ({ pagesReset cfg st m with
        queue := (pagesReset cfg st m).queue ++
          [⟨m.authorId, stripL (contentRaw.drop 7), lowerL m.uname⟩] },
     (peff cfg st m).app
       ⟨[SentMsg.thinkingFresh], [⟨m.authorId, stripL (contentRaw.drop 7), lowerL m.uname⟩],
        ((pstate cfg st m).pages.lookup m.authorId).toList, [], ∅⟩)

/-- `on_message` from line 379 on, applied to the already-extracted
`content_raw` (`main.py:378`).  Mirrors the control flow:
priority-owner preemption (386-411), the stop command with its owner-lock
gate and permission check (414-456), the newchat command (459-475), and the
plain-question path (478-479).  Note `content = content_raw.strip()` and
`content_lc = content.lower()` (379-380); the stop check is a substring test
on `content_lc`, the newchat check a prefix test on `content_lc`, while the
enqueued question text is taken from `content_raw`. -/
def handleContent (cfg : Config) (st : BotState) (m : Msg) (contentRaw : List Char) :
    BotState × Effects :=
  if "stop".toList <:+: lowerL (stripL contentRaw) then
    if (pstate cfg st m).ownerLock = true ∧ lowerL m.uname ≠ cfg.priorityOwner ∧
        ¬(lowerL m.uname ∈ cfg.ownerUsernames ∧
          (pstate cfg st m).ownerServed = some (lowerL m.uname)) then
      (pstate cfg st m, (peff cfg st m).app (sentOnly SentMsg.stopIgnoredOwner))
    else if m.isAdmin = true ∨ (lowerL m.uname ∈ cfg.ownerUsernames ∨
        lowerL m.uname = cfg.priorityOwner) then
      (drainSt (pstate cfg st m), (peff cfg st m).app (stopEff (pstate cfg st m)))
    else
      (pstate cfg st m, (peff cfg st m).app (sentOnly SentMsg.noPermission))
  else if "newchat".toList <+: lowerL (stripL contentRaw) then
    newchatRes cfg st m contentRaw
  else
    ({ pstate cfg st m with
        queue := (pstate cfg st m).queue ++ [⟨m.authorId, contentRaw, lowerL m.uname⟩] },
     (peff cfg st m).app
       ⟨[SentMsg.thinking], [⟨m.authorId, contentRaw, lowerL m.uname⟩], [], [], ∅⟩)

/-- Full `on_message` (`main.py:366-479`): ignore the bot's own messages,
react only when the literal mention token occurs in the raw content, then
hand the text after the first `'>'` (stripped) to the command dispatch. -/
def onMessage (cfg : Config) (st : BotState) (m : Msg) : BotState × Effects :=
  if m.fromSelf = true then (st, noEffects)
  else if mentionTok cfg <:+: m.content then
    handleContent cfg st m (stripL (afterFirstGt m.content))
  else (st, noEffects)

/-! ## The worker loop (`main.py:283-351`) -/

/-- What the awaited dispatch (`get_user_page` + `ask_gemini`,
`main.py:318-319`) did for one record.  `success` carries the answer text,
`failure` the exception text (any `Exception`, caught at `main.py:335`),
`cancelled` models `asyncio.CancelledError` delivered to the worker task
after `Task.cancel()` — which in Python >= 3.8 derives from `BaseException`,
not `Exception`. -/
inductive DispatchOutcome where
  | success (ans : List Char)
  | failure (err : List Char)
  | cancelled
  deriving DecidableEq

/-- Worker-side effects of dispatching one record: whether the
"Thinking..." placeholder was deleted, and what was sent to the channel. -/
structure WEffects where
  deletedThinking : Bool
  sent : List SentMsg
  deriving DecidableEq

/-- Chunking of long answers (`main.py:329-333`): pieces of 1800 chars
(fuel-based; `l.length` fuel always suffices). -/
def chunksOfAux : Nat → List Char → List (List Char)
  | 0, _ => []
  | _, [] => []
  | n + 1, c :: cs => ((c :: cs).take 1800) :: chunksOfAux n ((c :: cs).drop 1800)

def chunksOf (l : List Char) : List (List Char) := chunksOfAux l.length l

def chunkOut (ans : List Char) : List SentMsg :=
  if 1900 < ans.length then (chunksOf ans).map SentMsg.chunk else [SentMsg.chunk ans]

/-- State after `running_tasks.add(current_task)` and the owner-lock
acquisition (`main.py:305-315`): if the record's author username is the
priority owner or a configured owner, the lock triple is set to this task. -/
def acquirePhase (cfg : Config) (st : BotState) (tid : Nat) (rec : Record) : BotState :=
  if rec.uname = cfg.priorityOwner ∨ rec.uname ∈ cfg.ownerUsernames then
    { st with runningTasks := insert tid st.runningTasks,
              ownerLock := true, ownerActiveTask := some tid,
              ownerServed := some rec.uname }
  else { st with runningTasks := insert tid st.runningTasks }

/-- One iteration of the worker loop body (`main.py:294-351`) for a dequeued
record, with the dispatch outcome supplied as an oracle.  Returns the new
state, the effects, and whether the `while True` loop is still alive
afterwards: the `try` has `except Exception` (335) and a `finally`
(343-351), so a typed failure is caught, but `asyncio.CancelledError` runs
the `finally` and then propagates out of the loop, terminating the worker
task. -/
def processRecord (cfg : Config) (st : BotState) (tid : Nat) (rec : Record)
    (out : DispatchOutcome) : BotState × WEffects × Bool :=
  if st.stopFlag = true then (st, ⟨true, []⟩, true)
  else
    let st2 := acquirePhase cfg st tid rec
    let eff : WEffects :=
      match out with
      | .success ans => if st2.stopFlag = true then ⟨false, []⟩ else ⟨true, chunkOut ans⟩
      | .failure err => if st2.stopFlag = true then ⟨false, []⟩ else ⟨true, [SentMsg.errorOut err]⟩
      | .cancelled => ⟨false, []⟩
    let st3 :=
      if st2.ownerActiveTask = some tid then
        { st2 with ownerLock := false, ownerActiveTask := none, ownerServed := none }
      else st2
    let st4 := { st3 with runningTasks := st3.runningTasks.erase tid }
    let alive := match out with | .cancelled => false | _ => true
    (st4, eff, alive)

/-- The worker loop consuming a trace of (record, outcome) pairs, one per
`task_queue.get()`.  Stops early when an iteration leaves the loop dead;
returns the final state and how many records were actually consumed. -/
def workerRun (cfg : Config) : BotState → List (Record × DispatchOutcome) → BotState × Nat
  | st, [] => (st, 0)
  | st, (rec, out) :: rest =>
    let p := processRecord cfg st 0 rec out
    if p.2.2 = true then
      let q := workerRun cfg p.1 rest
      (q.1, q.2 + 1)
    else (p.1, 1)

/-! ## The completion detector's stabilization loop (`main.py:233-257`) -/

/-- `STABLE_REQUIRED = 3` (`main.py:90`). -/
def STABLE_REQUIRED : Nat := 3

/-- Result of the stabilization wait: `finished i el txt` means the loop
broke at poll `i` tracking element `el` with stabilized text `txt`;
`raised i` means an uncaught exception escaped at poll `i`. -/
inductive StabOut where
  | finished (i : Nat) (el : Nat) (txt : List Char)
  | raised (i : Nat)
  deriving DecidableEq

/-- The stabilization loop (`main.py:234-257`).  `readOf i e` is the result
of `await e.inner_text()` at poll `i` (`none` = the element is stale and the
call raises); `ans i` is `query_selector_all(RESPONSE_SELECTOR)` at poll
`i`, as element ids.  State: poll index `i`, tracked element `el`
(`new_el`), `prev` (`previous_text`, initially `""`), `stable` counter.
Per iteration: read the tracked element; on a stale read, re-query the list
— if empty, sleep and retry, else re-resolve to the last element and read
it, this second read being outside any `try` (`main.py:246`), so its
failure raises.  Then `stable += 1` on an identical read else reset, and
break once `stable >= STABLE_REQUIRED`.  Fuel-based: `none` = fuel ran out
before the loop broke. -/
def stabRun (readOf : Nat → Nat → Option (List Char)) (ans : Nat → List Nat) :
    Nat → Nat → Nat → List Char → Nat → Option StabOut
  | 0, _, _, _, _ => none
  | fuel + 1, i, el, prev, stable =>
    match readOf i el with
    | some t =>
      if t = prev then
        if STABLE_REQUIRED ≤ stable + 1 then some (StabOut.finished i el t)
        else stabRun readOf ans fuel (i + 1) el t (stable + 1)
      else stabRun readOf ans fuel (i + 1) el t 0
    | none =>
      match ans i with
      | [] => stabRun readOf ans fuel (i + 1) el prev stable
      | x :: xs =>
        match readOf i ((x :: xs).getLastD 0) with
        | some t =>
          if t = prev then
            if STABLE_REQUIRED ≤ stable + 1 then
              some (StabOut.finished i ((x :: xs).getLastD 0) t)
            else stabRun readOf ans fuel (i + 1) ((x :: xs).getLastD 0) t (stable + 1)
          else stabRun readOf ans fuel (i + 1) ((x :: xs).getLastD 0) t 0
        | none => some (StabOut.raised i)

/-! ## Video-suggestion augmentation (`main.py:271-276`) -/

/-- `question.replace(" ", "+")`. -/
def ytQuery (q : List Char) : List Char := q.map (fun c => if c = ' ' then '+' else c)

def ytLinkBase : List Char := "https://www.youtube.com/results?search_query=".toList

def suggestedVideoSep : List Char := "\n\n🔗 **Suggested video:** ".toList

/-- The augmentation step at the end of `ask_gemini` (`main.py:271-276`):
if the lowercased question contains both "suggest" and "video", append the
derived YouTube search link to the answer text. -/
def videoAugment (question answer : List Char) : List Char :=
  if "suggest".toList <:+: lowerL question ∧ "video".toList <:+: lowerL question then
    answer ++ suggestedVideoSep ++ (ytLinkBase ++ ytQuery question)
  else answer

/-! ## Helper lemmas -/

lemma pstate_ownerLock (cfg : Config) (st : BotState) (m : Msg) :
    (pstate cfg st m).ownerLock = st.ownerLock := by
  unfold pstate drainSt; split <;> rfl

lemma pstate_ownerServed (cfg : Config) (st : BotState) (m : Msg) :
    (pstate cfg st m).ownerServed = st.ownerServed := by
  unfold pstate drainSt; split <;> rfl

lemma pstate_pages (cfg : Config) (st : BotState) (m : Msg) :
    (pstate cfg st m).pages = st.pages := by
  unfold pstate drainSt; split <;> rfl

lemma pstate_runningTasks (cfg : Config) (st : BotState) (m : Msg) :
    (pstate cfg st m).runningTasks = st.runningTasks := by
  unfold pstate drainSt; split <;> rfl

lemma peff_sent (cfg : Config) (st : BotState) (m : Msg) : (peff cfg st m).sent = [] := by
  unfold peff preemptEff noEffects; split <;> rfl

lemma peff_enqueued (cfg : Config) (st : BotState) (m : Msg) :
    (peff cfg st m).enqueued = [] := by
  unfold peff preemptEff noEffects; split <;> rfl

lemma peff_closedPages (cfg : Config) (st : BotState) (m : Msg) :
    (peff cfg st m).closedPages = [] := by
  unfold peff preemptEff noEffects; split <;> rfl

lemma noEffects_app (e : Effects) : noEffects.app e = e := by
  unfold noEffects Effects.app; cases e; simp

/-! ## C1: stop with no lock held -/

/-- C1 (as written) is false on the code: with no owner lock held, an
ordinary actor's stop is rejected with a permission error, not performed.
Concrete run: no lock, author "bob" (not admin, not a configured owner, not
the priority owner), text "stop": the handler sends only the
"You don't have permission" message, the nonempty queue is not drained, no
task is cancelled, and no session is touched. -/
theorem stop_noLock_ordinary_rejected_cex :
    handleContent ⟨"1".toList, "yoru".toList, ["own".toList, "yoru".toList]⟩
      ⟨[⟨5, "q".toList, "bob".toList⟩], {3}, [(42, 7)], false, none, none, false⟩
      ⟨"<@1> stop".toList, "bob".toList, 42, false, false⟩ "stop".toList =
    (⟨[⟨5, "q".toList, "bob".toList⟩], {3}, [(42, 7)], false, none, none, false⟩,
     sentOnly SentMsg.noPermission) := by
  decide

/-- C1 (amended): with no owner lock held, a stop from an administrator, a
configured owner, or the priority owner is performed (queue drained, all
running tasks cancelled, all pages reloaded, "All tasks stopped." sent,
nothing enqueued); a stop from an ordinary actor is rejected with the
permission-error message and the state is unchanged. -/
theorem stop_noLock_authorization (cfg : Config) (st : BotState) (m : Msg)
    (contentRaw : List Char)
    (hnl : st.ownerLock = false)
    (hstop : "stop".toList <:+: lowerL (stripL contentRaw)) :
    ((m.isAdmin = true ∨ lowerL m.uname ∈ cfg.ownerUsernames ∨
        lowerL m.uname = cfg.priorityOwner) →
      (handleContent cfg st m contentRaw).2.sent = [SentMsg.allStopped] ∧
      (handleContent cfg st m contentRaw).1.queue = [] ∧
      (handleContent cfg st m contentRaw).2.cancelled = st.runningTasks ∧
      (∀ pid ∈ st.pages.map Prod.snd, pid ∈ (handleContent cfg st m contentRaw).2.reloadedPages) ∧
      (handleContent cfg st m contentRaw).2.enqueued = []) ∧
    (m.isAdmin = false → lowerL m.uname ∉ cfg.ownerUsernames →
      lowerL m.uname ≠ cfg.priorityOwner →
      handleContent cfg st m contentRaw = (st, sentOnly SentMsg.noPermission)) := by
  have hgate : ¬((pstate cfg st m).ownerLock = true ∧ lowerL m.uname ≠ cfg.priorityOwner ∧
      ¬(lowerL m.uname ∈ cfg.ownerUsernames ∧
        (pstate cfg st m).ownerServed = some (lowerL m.uname))) := by
    rw [pstate_ownerLock, hnl]; simp
  constructor
  · intro hauth
    unfold handleContent
    rw [if_pos hstop, if_neg hgate, if_pos (by tauto)]
    by_cases hp : lowerL m.uname = cfg.priorityOwner <;>
      simp [pstate, peff, hp, drainSt, preemptEff, stopEff, Effects.app, noEffects]
  · intro ha ho hp
    unfold handleContent
    rw [if_pos hstop, if_neg hgate, if_neg (by simp [ha, ho, hp]),
      show pstate cfg st m = st from by simp [pstate, hp],
      show peff cfg st m = noEffects from by simp [peff, hp], noEffects_app]

/-- Witness for `stop_noLock_authorization`: an administrator's stop with no
lock held is performed. -/
theorem stop_noLock_authorization_witness :
    (handleContent ⟨"1".toList, "yoru".toList, ["own".toList, "yoru".toList]⟩
      ⟨[⟨5, "q".toList, "bob".toList⟩], {3}, [(42, 7)], false, none, none, false⟩
      ⟨"<@1> stop".toList, "Ada".toList, 43, true, false⟩ "please STOP now".toList).2.sent =
      [SentMsg.allStopped] ∧
    (handleContent ⟨"1".toList, "yoru".toList, ["own".toList, "yoru".toList]⟩
      ⟨[⟨5, "q".toList, "bob".toList⟩], {3}, [(42, 7)], false, none, none, false⟩
      ⟨"<@1> stop".toList, "Ada".toList, 43, true, false⟩ "please STOP now".toList).1.queue =
      [] := by
  have h := stop_noLock_authorization
    ⟨"1".toList, "yoru".toList, ["own".toList, "yoru".toList]⟩
    ⟨[⟨5, "q".toList, "bob".toList⟩], {3}, [(42, 7)], false, none, none, false⟩
    ⟨"<@1> stop".toList, "Ada".toList, 43, true, false⟩ "please STOP now".toList
    (by decide) (by decide)
  exact ⟨(h.1 (Or.inl rfl)).1, (h.1 (Or.inl rfl)).2.1⟩

/-! ## C3: stop under an owner-held lock -/

/-- C3: while the owner lock is held serving configured-owner `O`, a stop is
honored iff the caller's lowercased username is `O` or the priority owner;
any other caller (administrators included) gets the "protected owner"
refusal, nothing is cancelled, and the state is untouched. -/
theorem stop_ownerLock_policy (cfg : Config) (st : BotState) (m : Msg)
    (contentRaw : List Char) (O : List Char)
    (hlock : st.ownerLock = true)
    (hsrv : st.ownerServed = some O)
    (hO : O ∈ cfg.ownerUsernames)
    (hstop : "stop".toList <:+: lowerL (stripL contentRaw)) :
    ((lowerL m.uname = O ∨ lowerL m.uname = cfg.priorityOwner) →
      (handleContent cfg st m contentRaw).2.sent = [SentMsg.allStopped] ∧
      (handleContent cfg st m contentRaw).1.queue = [] ∧
      (handleContent cfg st m contentRaw).2.cancelled = st.runningTasks ∧
      (handleContent cfg st m contentRaw).2.enqueued = []) ∧
    (lowerL m.uname ≠ O → lowerL m.uname ≠ cfg.priorityOwner →
      handleContent cfg st m contentRaw = (st, sentOnly SentMsg.stopIgnoredOwner)) := by
  constructor
  · intro hcall
    unfold handleContent
    rw [if_pos hstop]
    rcases hcall with hisO | hisP
    · have hgate : ¬((pstate cfg st m).ownerLock = true ∧
          lowerL m.uname ≠ cfg.priorityOwner ∧
          ¬(lowerL m.uname ∈ cfg.ownerUsernames ∧
            (pstate cfg st m).ownerServed = some (lowerL m.uname))) := by
        rw [pstate_ownerServed, hsrv, hisO]
        push_neg
        intro _ _
        exact ⟨hO, rfl⟩
      rw [if_neg hgate, if_pos (Or.inr (Or.inl (hisO ▸ hO)))]
      by_cases hp : lowerL m.uname = cfg.priorityOwner <;>
        simp [pstate, peff, hp, drainSt, preemptEff, stopEff, Effects.app, noEffects]
    · have hgate : ¬((pstate cfg st m).ownerLock = true ∧
          lowerL m.uname ≠ cfg.priorityOwner ∧
          ¬(lowerL m.uname ∈ cfg.ownerUsernames ∧
            (pstate cfg st m).ownerServed = some (lowerL m.uname))) := by
        push_neg
        intro _ hne
        exact absurd hisP hne
      rw [if_neg hgate, if_pos (Or.inr (Or.inr hisP))]
      simp [pstate, peff, hisP, drainSt, preemptEff, stopEff, Effects.app, noEffects]
  · intro hne hnp
    unfold handleContent
    have hgate : (pstate cfg st m).ownerLock = true ∧ lowerL m.uname ≠ cfg.priorityOwner ∧
        ¬(lowerL m.uname ∈ cfg.ownerUsernames ∧
          (pstate cfg st m).ownerServed = some (lowerL m.uname)) := by
      refine ⟨by rw [pstate_ownerLock, hlock], hnp, ?_⟩
      rw [pstate_ownerServed, hsrv]
      rintro ⟨-, hsome⟩
      exact hne (Option.some.inj hsome).symm
    rw [if_pos hstop, if_pos hgate,
      show pstate cfg st m = st from by simp [pstate, hnp],
      show peff cfg st m = noEffects from by simp [peff, hnp], noEffects_app]

/-- Witness for `stop_ownerLock_policy`: lock held for configured owner
"own"; the served owner's own stop is honored, an administrator's is
refused. -/
theorem stop_ownerLock_policy_witness :
    (handleContent ⟨"1".toList, "yoru".toList, ["own".toList, "yoru".toList]⟩
      ⟨[], {3}, [(42, 7)], true, some 3, some "own".toList, false⟩
      ⟨"<@1> stop".toList, "Own".toList, 44, false, false⟩ "stop".toList).2.sent =
      [SentMsg.allStopped] ∧
    handleContent ⟨"1".toList, "yoru".toList, ["own".toList, "yoru".toList]⟩
      ⟨[], {3}, [(42, 7)], true, some 3, some "own".toList, false⟩
      ⟨"<@1> stop".toList, "Ada".toList, 43, true, false⟩ "stop".toList =
      (⟨[], {3}, [(42, 7)], true, some 3, some "own".toList, false⟩,
       sentOnly SentMsg.stopIgnoredOwner) := by
  constructor
  · exact ((stop_ownerLock_policy
      ⟨"1".toList, "yoru".toList, ["own".toList, "yoru".toList]⟩
      ⟨[], {3}, [(42, 7)], true, some 3, some "own".toList, false⟩
      ⟨"<@1> stop".toList, "Own".toList, 44, false, false⟩ "stop".toList "own".toList
      rfl rfl (by decide) (by decide)).1 (Or.inl (by decide))).1
  · exact (stop_ownerLock_policy
      ⟨"1".toList, "yoru".toList, ["own".toList, "yoru".toList]⟩
      ⟨[], {3}, [(42, 7)], true, some 3, some "own".toList, false⟩
      ⟨"<@1> stop".toList, "Ada".toList, 43, true, false⟩ "stop".toList "own".toList
      rfl rfl (by decide) (by decide)).2 (by decide) (by decide)

/-! ## C9: stop takes precedence over newchat -/

/-- C9: whenever the stripped text contains "stop" (case-insensitively),
`on_message` handles it exclusively as a stop command: nothing is enqueued,
no session handle is removed or closed, the page registry is unchanged, and
everything sent is one of the three stop-related messages.  This holds in
particular for texts beginning with "newchat", because the stop check
(`main.py:414`) runs before the newchat prefix check (`main.py:459`). -/
theorem stop_precedence_over_newchat (cfg : Config) (st : BotState) (m : Msg)
    (contentRaw : List Char)
    (hstop : "stop".toList <:+: lowerL (stripL contentRaw)) :
    (handleContent cfg st m contentRaw).2.enqueued = [] ∧
    (handleContent cfg st m contentRaw).2.closedPages = [] ∧
    (handleContent cfg st m contentRaw).1.pages = st.pages ∧
    (handleContent cfg st m contentRaw).2.sent ≠ [] ∧
    ∀ x ∈ (handleContent cfg st m contentRaw).2.sent,
      x = SentMsg.stopIgnoredOwner ∨ x = SentMsg.allStopped ∨ x = SentMsg.noPermission := by
  unfold handleContent
  rw [if_pos hstop]
  split_ifs <;>
    simp [Effects.app, sentOnly, stopEff, drainSt, peff_sent, peff_enqueued,
      peff_closedPages, pstate_pages]

/-- Witness for `stop_precedence_over_newchat`: the text
"newchat stop everything" (admin author) is handled as a stop: nothing is
enqueued and no page is closed. -/
theorem stop_precedence_over_newchat_witness :
    (handleContent ⟨"1".toList, "yoru".toList, ["own".toList, "yoru".toList]⟩
      ⟨[], {3}, [(42, 7)], false, none, none, false⟩
      ⟨"<@1> x".toList, "Ada".toList, 42, true, false⟩
      "newchat stop everything".toList).2.enqueued = [] ∧
    (handleContent ⟨"1".toList, "yoru".toList, ["own".toList, "yoru".toList]⟩
      ⟨[], {3}, [(42, 7)], false, none, none, false⟩
      ⟨"<@1> x".toList, "Ada".toList, 42, true, false⟩
      "newchat stop everything".toList).2.closedPages = [] := by
  have h := stop_precedence_over_newchat
    ⟨"1".toList, "yoru".toList, ["own".toList, "yoru".toList]⟩
    ⟨[], {3}, [(42, 7)], false, none, none, false⟩
    ⟨"<@1> x".toList, "Ada".toList, 42, true, false⟩
    "newchat stop everything".toList (by decide)
  exact ⟨h.1, h.2.1⟩

/-! ## C2: the dispatch loop dies on cancellation (code bug) -/

/-- C2 is violated by the code: the worker's `try` catches only `Exception`
(`main.py:335`), but `asyncio.CancelledError` — what an in-flight worker
task receives when a stop or priority preemption calls `Task.cancel()`
(`main.py:398-402, 438-442`) — derives from `BaseException` on the Python
versions this code requires (it uses `X | None` annotations), so it runs the
`finally` and then propagates out of `while True`, permanently terminating
the single worker task created in `on_ready` (`main.py:362`).  Concretely:
a cancelled dispatch suppresses output (as specified) but leaves the loop
dead, and a second queued record is never consumed, while success and typed
failure keep the loop alive. -/
theorem worker_loop_dies_on_cancellation :
    (processRecord ⟨"1".toList, "yoru".toList, ["own".toList, "yoru".toList]⟩
      ⟨[], ∅, [(42, 7)], false, none, none, false⟩ 0
      ⟨42, "q".toList, "bob".toList⟩ DispatchOutcome.cancelled).2.2 = false ∧
    (processRecord ⟨"1".toList, "yoru".toList, ["own".toList, "yoru".toList]⟩
      ⟨[], ∅, [(42, 7)], false, none, none, false⟩ 0
      ⟨42, "q".toList, "bob".toList⟩ DispatchOutcome.cancelled).2.1.sent = [] ∧
    (processRecord ⟨"1".toList, "yoru".toList, ["own".toList, "yoru".toList]⟩
      ⟨[], ∅, [(42, 7)], false, none, none, false⟩ 0
      ⟨42, "q".toList, "bob".toList⟩ (DispatchOutcome.failure "boom".toList)).2.2 = true ∧
    (processRecord ⟨"1".toList, "yoru".toList, ["own".toList, "yoru".toList]⟩
      ⟨[], ∅, [(42, 7)], false, none, none, false⟩ 0
      ⟨42, "q".toList, "bob".toList⟩ (DispatchOutcome.success "hi".toList)).2.2 = true ∧
    (workerRun ⟨"1".toList, "yoru".toList, ["own".toList, "yoru".toList]⟩
      ⟨[], ∅, [(42, 7)], false, none, none, false⟩
      [(⟨42, "q".toList, "bob".toList⟩, DispatchOutcome.cancelled),
       (⟨43, "r".toList, "eve".toList⟩, DispatchOutcome.success "hi".toList)]).2 = 1 := by
  decide

/-! ## C5: owner-lock acquisition and unconditional release -/

/-- C5: the lock holder is a single `Option` username (at most one holder by
representation).  When a dispatched record's author is the priority owner or
a configured owner and the worker is not dropping tasks (`stop_flag` clear),
the acquisition phase records exactly that author and that task as holder,
and after the dispatch ends — success, typed failure, or cancellation alike
(the `finally` of `main.py:343-351`) — the lock, the active-task handle and
the served-owner name are all cleared and the task is deregistered. -/
theorem ownerLock_release_unconditional (cfg : Config) (st : BotState) (tid : Nat)
    (rec : Record) (out : DispatchOutcome)
    (hflag : st.stopFlag = false)
    (hown : rec.uname = cfg.priorityOwner ∨ rec.uname ∈ cfg.ownerUsernames) :
    (acquirePhase cfg st tid rec).ownerLock = true ∧
    (acquirePhase cfg st tid rec).ownerServed = some rec.uname ∧
    (acquirePhase cfg st tid rec).ownerActiveTask = some tid ∧
    (processRecord cfg st tid rec out).1.ownerLock = false ∧
    (processRecord cfg st tid rec out).1.ownerActiveTask = none ∧
    (processRecord cfg st tid rec out).1.ownerServed = none ∧
    tid ∉ (processRecord cfg st tid rec out).1.runningTasks := by
  have hacq : acquirePhase cfg st tid rec =
      { st with
        runningTasks := insert tid st.runningTasks,
        ownerLock := true, ownerActiveTask := some tid, ownerServed := some rec.uname } := by
    unfold acquirePhase; rw [if_pos hown]
  have hproc : (processRecord cfg st tid rec out).1 =
      { st with
        runningTasks := (insert tid st.runningTasks).erase tid,
        ownerLock := false, ownerActiveTask := none, ownerServed := none } := by
    unfold processRecord
    rw [if_neg (by simp [hflag])]
    simp [hacq]
  refine ⟨by rw [hacq], by rw [hacq], by rw [hacq], by rw [hproc], by rw [hproc],
    by rw [hproc], ?_⟩
  rw [hproc]
  exact Finset.not_mem_erase tid _

/-- Witness for `ownerLock_release_unconditional`: dispatching configured
owner "own", outcome cancellation; the lock triple is fully cleared. -/
theorem ownerLock_release_unconditional_witness :
    (processRecord ⟨"1".toList, "yoru".toList, ["own".toList, "yoru".toList]⟩
      ⟨[], ∅, [], false, none, none, false⟩ 9
      ⟨44, "q".toList, "own".toList⟩ DispatchOutcome.cancelled).1.ownerLock = false ∧
    (processRecord ⟨"1".toList, "yoru".toList, ["own".toList, "yoru".toList]⟩
      ⟨[], ∅, [], false, none, none, false⟩ 9
      ⟨44, "q".toList, "own".toList⟩ DispatchOutcome.cancelled).1.ownerActiveTask = none ∧
    (processRecord ⟨"1".toList, "yoru".toList, ["own".toList, "yoru".toList]⟩
      ⟨[], ∅, [], false, none, none, false⟩ 9
      ⟨44, "q".toList, "own".toList⟩ DispatchOutcome.cancelled).1.ownerServed = none ∧
    9 ∉ (processRecord ⟨"1".toList, "yoru".toList, ["own".toList, "yoru".toList]⟩
      ⟨[], ∅, [], false, none, none, false⟩ 9
      ⟨44, "q".toList, "own".toList⟩ DispatchOutcome.cancelled).1.runningTasks := by
  have h := ownerLock_release_unconditional
    ⟨"1".toList, "yoru".toList, ["own".toList, "yoru".toList]⟩
    ⟨[], ∅, [], false, none, none, false⟩ 9
    ⟨44, "q".toList, "own".toList⟩ DispatchOutcome.cancelled rfl (by decide)
  exact ⟨h.2.2.2.1, h.2.2.2.2.1, h.2.2.2.2.2.1, h.2.2.2.2.2.2⟩

/-! ## C6: newchat round trip -/

/-- C6 (as written) is false on the code: a message whose stripped text
starts with "newchat" followed by non-empty remaining text, when that text
contains "stop" (e.g. "newchat stop"), is intercepted by the stop command
check, which runs first: for an ordinary author the handler sends only the
permission error — the session page (42,7) is neither removed nor closed and
nothing is enqueued. -/
theorem newchat_stop_text_cex :
    handleContent ⟨"1".toList, "yoru".toList, ["own".toList, "yoru".toList]⟩
      ⟨[], ∅, [(42, 7)], false, none, none, false⟩
      ⟨"<@1> newchat stop".toList, "bob".toList, 42, false, false⟩
      "newchat stop".toList =
    (⟨[], ∅, [(42, 7)], false, none, none, false⟩, sentOnly SentMsg.noPermission) := by
  decide

/-- C6 (amended): for every stripped text starting with "newchat"
(case-insensitively) and not containing "stop" (texts containing "stop" are
intercepted by the stop handler first): the author's page is removed from
the registry and closed; if the remaining text (after "newchat", stripped)
is non-empty it is enqueued as a fresh request attributed to the same actor
behind a "fresh chat" placeholder, and if it is empty only the reset
confirmation is sent and nothing is enqueued. -/
theorem newchat_roundtrip (cfg : Config) (st : BotState) (m : Msg)
    (contentRaw : List Char)
    (hs : stripL contentRaw = contentRaw)
    (hnew : "newchat".toList <+: lowerL contentRaw)
    (hnostop : ¬("stop".toList <:+: lowerL contentRaw)) :
    (handleContent cfg st m contentRaw).1.pages =
      st.pages.filter (fun p => decide (p.1 ≠ m.authorId)) ∧
    (handleContent cfg st m contentRaw).2.closedPages =
      (st.pages.lookup m.authorId).toList ∧
    (stripL (contentRaw.drop 7) ≠ [] →
      (handleContent cfg st m contentRaw).2.enqueued =
        [⟨m.authorId, stripL (contentRaw.drop 7), lowerL m.uname⟩] ∧
      (handleContent cfg st m contentRaw).2.sent = [SentMsg.thinkingFresh]) ∧
    (stripL (contentRaw.drop 7) = [] →
      (handleContent cfg st m contentRaw).2.enqueued = [] ∧
      (handleContent cfg st m contentRaw).2.sent = [SentMsg.newChatCreated]) := by
  unfold handleContent
  rw [if_neg (by rw [hs]; exact hnostop), if_pos (by rw [hs]; exact hnew)]
  unfold newchatRes
  by_cases hq : stripL (contentRaw.drop 7) = [] <;>
    [rw [if_pos hq]; rw [if_neg hq]] <;>
    refine ⟨?_, ?_, ?_, ?_⟩ <;>
    simp [pagesReset, pstate_pages, peff_sent, peff_enqueued, peff_closedPages,
      Effects.app, hq]

/-- Witness for `newchat_roundtrip`: "NEWCHAT  Hello there" from author 42
removes and closes page (42,7) and enqueues "Hello there" for actor 42. -/
theorem newchat_roundtrip_witness :
    (handleContent ⟨"1".toList, "yoru".toList, ["own".toList, "yoru".toList]⟩
      ⟨[], ∅, [(42, 7)], false, none, none, false⟩
      ⟨"<@1> x".toList, "bob".toList, 42, false, false⟩
      "NEWCHAT  Hello there".toList).1.pages = [] ∧
    (handleContent ⟨"1".toList, "yoru".toList, ["own".toList, "yoru".toList]⟩
      ⟨[], ∅, [(42, 7)], false, none, none, false⟩
      ⟨"<@1> x".toList, "bob".toList, 42, false, false⟩
      "NEWCHAT  Hello there".toList).2.closedPages = [7] ∧
    (handleContent ⟨"1".toList, "yoru".toList, ["own".toList, "yoru".toList]⟩
      ⟨[], ∅, [(42, 7)], false, none, none, false⟩
      ⟨"<@1> x".toList, "bob".toList, 42, false, false⟩
      "NEWCHAT  Hello there".toList).2.enqueued =
      [⟨42, "Hello there".toList, "bob".toList⟩] := by
  have h := newchat_roundtrip
    ⟨"1".toList, "yoru".toList, ["own".toList, "yoru".toList]⟩
    ⟨[], ∅, [(42, 7)], false, none, none, false⟩
    ⟨"<@1> x".toList, "bob".toList, 42, false, false⟩
    "NEWCHAT  Hello there".toList (by decide) (by decide) (by decide)
  refine ⟨by rw [h.1]; decide, by rw [h.2.1]; decide, ?_⟩
  rw [(h.2.2.1 (by decide)).1]
  decide

/-! ## C8: video-link augmentation -/

/-- C8: if the question contains both a "suggest" and a "video" token
(case-insensitive, order irrelevant), the answer text is returned with the
deterministic YouTube search link (the question with spaces replaced by
`'+'`) appended; without a "suggest" token (in particular for questions
containing only "video") the answer is returned unchanged. -/
theorem video_augmentation (question answer : List Char) :
    ("suggest".toList <:+: lowerL question → "video".toList <:+: lowerL question →
      videoAugment question answer =
        answer ++ "\n\n🔗 **Suggested video:** ".toList ++
          ("https://www.youtube.com/results?search_query=".toList ++
           question.map (fun c => if c = ' ' then '+' else c))) ∧
    ("video".toList <:+: lowerL question → ¬("suggest".toList <:+: lowerL question) →
      videoAugment question answer = answer) := by
  constructor
  · intro h1 h2
    unfold videoAugment
    rw [if_pos ⟨h1, h2⟩]
    rfl
  · intro _ hns
    unfold videoAugment
    rw [if_neg (by rintro ⟨h, -⟩; exact hns h)]

/-- Witness for `video_augmentation`: "Please SUGGEST a video about cats"
gets the link appended; "a video about cats" does not. -/
theorem video_augmentation_witness :
    videoAugment "Please SUGGEST a video about cats".toList "ANS".toList =
      "ANS".toList ++ "\n\n🔗 **Suggested video:** ".toList ++
        ("https://www.youtube.com/results?search_query=".toList ++
         "Please SUGGEST a video about cats".toList.map
           (fun c => if c = ' ' then '+' else c)) ∧
    videoAugment "a video about cats".toList "ANS".toList = "ANS".toList := by
  constructor
  · exact (video_augmentation "Please SUGGEST a video about cats".toList
      "ANS".toList).1 (by decide) (by decide)
  · exact (video_augmentation "a video about cats".toList "ANS".toList).2
      (by decide) (by decide)

/-! ## Single-step lemmas for the stabilization loop -/

lemma stab_step_ne (readOf : Nat → Nat → Option (List Char)) (ans : Nat → List Nat)
    (fuel i el : Nat) (prev : List Char) (stable : Nat) (t : List Char)
    (h : readOf i el = some t) (hne : t ≠ prev) :
    stabRun readOf ans (fuel + 1) i el prev stable =
      stabRun readOf ans fuel (i + 1) el t 0 := by
  simp only [stabRun, h]
  rw [if_neg hne]

lemma stab_step_stay (readOf : Nat → Nat → Option (List Char)) (ans : Nat → List Nat)
    (fuel i el : Nat) (prev : List Char) (stable : Nat) (t : List Char)
    (h : readOf i el = some t) (heq : t = prev)
    (hlt : ¬(STABLE_REQUIRED ≤ stable + 1)) :
    stabRun readOf ans (fuel + 1) i el prev stable =
      stabRun readOf ans fuel (i + 1) el t (stable + 1) := by
  simp only [stabRun, h]
  rw [if_pos heq, if_neg hlt]

lemma stab_step_done (readOf : Nat → Nat → Option (List Char)) (ans : Nat → List Nat)
    (fuel i el : Nat) (prev : List Char) (stable : Nat) (t : List Char)
    (h : readOf i el = some t) (heq : t = prev)
    (hge : STABLE_REQUIRED ≤ stable + 1) :
    stabRun readOf ans (fuel + 1) i el prev stable = some (StabOut.finished i el t) := by
  simp only [stabRun, h]
  rw [if_pos heq, if_pos hge]

/-- Tail of the stabilization run: once every read from poll `i` on returns
`v` and the previous text differs from `v`, the loop breaks exactly at poll
`i + 3` (one read establishing `v` plus `STABLE_REQUIRED = 3` identical
confirmations) with value `v`. -/
lemma stab_tail (reads : Nat → List Char) (ans : Nat → List Nat) (v : List Char)
    (i el : Nat) (prev : List Char) (s : Nat)
    (hv : ∀ k, i ≤ k → reads k = v) (hp : prev ≠ v) :
    ∀ fuel, 4 ≤ fuel →
      stabRun (fun j _ => some (reads j)) ans fuel i el prev s =
        some (StabOut.finished (i + 3) el v) := by
  intro fuel hf
  obtain ⟨f, rfl⟩ : ∃ f, fuel = f + 1 + 1 + 1 + 1 := ⟨fuel - 4, by omega⟩
  rw [stab_step_ne _ ans (f + 1 + 1 + 1) i el prev s (reads i) rfl
    (by rw [hv i le_rfl]; exact fun hh => hp hh.symm)]
  rw [stab_step_stay _ ans (f + 1 + 1) (i + 1) el (reads i) 0 (reads (i + 1)) rfl
    (by rw [hv (i + 1) (by omega), hv i (by omega)]) (by decide)]
  rw [stab_step_stay _ ans (f + 1) (i + 1 + 1) el (reads (i + 1)) 1 (reads (i + 1 + 1)) rfl
    (by rw [hv (i + 1 + 1) (by omega), hv (i + 1) (by omega)]) (by decide)]
  rw [stab_step_done _ ans f (i + 1 + 1 + 1) el (reads (i + 1 + 1)) 2 (reads (i + 1 + 1 + 1)) rfl
    (by rw [hv (i + 1 + 1 + 1) (by omega), hv (i + 1 + 1) (by omega)]) (by decide)]
  rw [hv (i + 1 + 1 + 1) (by omega)]

/-- Prefix of the stabilization run: while the source is still changing at
every poll (the shape hypothesis of C4), each iteration resets the counter,
so the run from any poll `k` in the changing prefix ends at `m + 3`. -/
lemma stab_prefix (reads : Nat → List Char) (ans : Nat → List Nat) (m : Nat)
    (v : List Char) (el : Nat)
    (hm : ∀ k, k < m → reads k ≠ reads (k + 1)) (hv : ∀ k, m ≤ k → reads k = v) :
    ∀ fuel k s, 1 ≤ k → k ≤ m → m - k + 4 ≤ fuel →
      stabRun (fun j _ => some (reads j)) ans fuel k el (reads (k - 1)) s =
        some (StabOut.finished (m + 3) el v) := by
  intro fuel
  induction fuel with
  | zero => intro k s _ _ h3; omega
  | succ f IH =>
    intro k s h1 h2 h3
    by_cases hk : k = m
    · subst hk
      have hp : reads (k - 1) ≠ v := by
        have h := hm (k - 1) (by omega)
        rw [show k - 1 + 1 = k from by omega, hv k le_rfl] at h
        exact h
      exact stab_tail reads ans v k el (reads (k - 1)) s hv hp (f + 1) (by omega)
    · have hne : reads k ≠ reads (k - 1) := by
        have h := hm (k - 1) (by omega)
        rw [show k - 1 + 1 = k from by omega] at h
        exact h.symm
      rw [stab_step_ne _ ans f k el (reads (k - 1)) s (reads k) rfl hne]
      exact IH (k + 1) 0 (by omega) (by omega) (by omega)

/-! ## C4: stabilization exactness -/

/-- C4 (as written) is false on the code: for the constant source "a", three
consecutive identical reads have been observed after polls 0,1,2, but the
detector does not declare the content final there — the `stable` counter
counts reads identical to the *previous* read, so it reaches
`STABLE_REQUIRED = 3` only at poll 3, after a fourth identical read. -/
theorem stabilization_exact_three_reads_cex :
    stabRun (fun _ _ => some "a".toList) (fun _ => []) 10 0 0 [] 0 =
      some (StabOut.finished 3 0 "a".toList) ∧
    stabRun (fun _ _ => some "a".toList) (fun _ => []) 10 0 0 [] 0 ≠
      some (StabOut.finished 2 0 "a".toList) := by
  decide

/-- C4 (amended): for a polled source that changes value at each of its
first `m` polls and then repeats `v` forever (`1 ≤ m`, or `v` non-empty when
`m = 0`, excluding the degenerate all-empty source that matches the initial
`previous_text = ""`), the detector declares the content final exactly when
the stability counter reaches `STABLE_REQUIRED = 3`, i.e. at poll `m + 3`
after four consecutive identical reads (the read establishing `v` plus
three confirmations), and the value it stabilizes on is exactly `v` — never
earlier and never a different value. -/
theorem stabilization_threshold (reads : Nat → List Char) (ans : Nat → List Nat)
    (m : Nat) (v : List Char)
    (hm : ∀ k, k < m → reads k ≠ reads (k + 1))
    (hv : ∀ k, m ≤ k → reads k = v)
    (hnz : 1 ≤ m ∨ v ≠ [])
    (fuel : Nat) (hf : m + 4 ≤ fuel) :
    stabRun (fun j _ => some (reads j)) ans fuel 0 0 [] 0 =
      some (StabOut.finished (m + 3) 0 v) := by
  by_cases hm0 : m = 0
  · subst hm0
    have hv0 : v ≠ [] := by
      rcases hnz with h | h
      · exact absurd h (by omega)
      · exact h
    exact stab_tail reads ans v 0 0 [] 0 (fun k _ => hv k (by omega))
      (fun hh => hv0 hh.symm) fuel (by omega)
  · have h1m : 1 ≤ m := by omega
    obtain ⟨f, rfl⟩ : ∃ f, fuel = f + 1 := ⟨fuel - 1, by omega⟩
    by_cases h00 : reads 0 = []
    · rw [stab_step_stay _ ans f 0 0 [] 0 (reads 0) rfl h00 (by decide)]
      exact stab_prefix reads ans m v 0 hm hv f 1 1 le_rfl h1m (by omega)
    · rw [stab_step_ne _ ans f 0 0 [] 0 (reads 0) rfl h00]
      exact stab_prefix reads ans m v 0 hm hv f 1 0 le_rfl h1m (by omega)

/-- Witness for `stabilization_threshold`: a source reading "x" once then
"v" forever stabilizes at poll 4 with value "v". -/
theorem stabilization_threshold_witness :
    stabRun (fun j _ => some (if j = 0 then "x".toList else "v".toList)) (fun _ => [])
      6 0 0 [] 0 = some (StabOut.finished 4 0 "v".toList) := by
  exact stabilization_threshold (fun j => if j = 0 then "x".toList else "v".toList)
    (fun _ => []) 1 "v".toList (by decide)
    (fun k hk => if_neg (by omega)) (Or.inl le_rfl) 6 (by decide)

/-! ## C7: stale-element recovery -/

/-- C7 (as written) is false on the code: the recovery read of the
re-resolved newest element (`main.py:246`) is outside the `try`, so when the
tracked element is stale and the freshly re-resolved element's read raises
too, the exception escapes the stabilization loop — a stale read does
terminate the loop as a hard failure.  Concrete run: every read raises, the
output list is `[7]`; the loop raises at the very first poll. -/
theorem stale_recovery_hard_failure_cex :
    stabRun (fun _ _ => none) (fun _ => [7]) 5 0 0 [] 0 = some (StabOut.raised 0) := by
  decide

/-- C7 (amended): a stale read of the tracked element triggers re-resolution
of the newest output element (or another poll of the list when it is empty)
and continues the loop; it becomes a hard failure only when the recovery
read of the re-resolved element itself raises.  Hence whenever every
recovery read succeeds, no stale read ever terminates the stabilization
loop with a raise. -/
theorem stale_recovery (readOf : Nat → Nat → Option (List Char)) (ans : Nat → List Nat)
    (hrec : ∀ i e, readOf i e = none → ∀ x xs, ans i = x :: xs →
      readOf i ((x :: xs).getLastD 0) ≠ none) :
    ∀ fuel i el prev stable j,
      stabRun readOf ans fuel i el prev stable ≠ some (StabOut.raised j) := by
  intro fuel
  induction fuel with
  | zero => intro i el prev stable j h; simp [stabRun] at h
  | succ f IH =>
    intro i el prev stable j h
    simp only [stabRun] at h
    split at h
    · split_ifs at h
      · exact StabOut.noConfusion (Option.some.inj h)
      · exact IH _ _ _ _ _ h
      · exact IH _ _ _ _ _ h
    · rename_i heq
      split at h
      · exact IH _ _ _ _ _ h
      · rename_i x xs ha
        split at h
        · split_ifs at h
          · exact StabOut.noConfusion (Option.some.inj h)
          · exact IH _ _ _ _ _ h
          · exact IH _ _ _ _ _ h
        · rename_i hb
          exact absurd hb (hrec i el heq x xs ha)

/-- Witness for `stale_recovery`: with a total read function (no read ever
raises) the loop never raises. -/
theorem stale_recovery_witness :
    stabRun (fun _ _ => some "a".toList) (fun _ => []) 5 0 0 [] 0 ≠
      some (StabOut.raised 0) := by
  exact stale_recovery (fun _ _ => some "a".toList) (fun _ => [])
    (fun i e hne => absurd hne (by simp)) 5 0 0 [] 0 0

/-! ## C10: mention gating and extraction -/

lemma afterFirstGt_append (a b : List Char) (ha : '>' ∉ a) :
    afterFirstGt (a ++ '>' :: b) = b := by
  induction a with
  | nil => simp [afterFirstGt]
  | cons c cs ih =>
    have hc : ¬(c = '>') := fun hh => ha (by rw [hh]; exact List.mem_cons_self _ _)
    rw [List.cons_append]
    simp only [afterFirstGt]
    rw [if_neg hc]
    exact ih (fun hh => ha (List.mem_cons_of_mem _ hh))

lemma infix_dropWhile (p : Char → Bool) (c : Char) (t : List Char)
    (hc : p c = false) :
    ∀ s, (c :: t) <:+: s → (c :: t) <:+: s.dropWhile p := by
  intro s h
  induction s with
  | nil => simp at h
  | cons d ds ih =>
    by_cases hd : p d = true
    · rw [List.dropWhile_cons_of_pos hd]
      apply ih
      obtain ⟨u, w, huw⟩ := h
      cases u with
      | nil =>
        simp only [List.nil_append, List.cons_append, List.cons.injEq] at huw
        exact absurd hd (by rw [← huw.1]; simp [hc])
      | cons e u2 =>
        refine ⟨u2, w, ?_⟩
        have h5 : e :: (u2 ++ (c :: t) ++ w) = d :: ds := by
          simpa [List.cons_append, List.append_assoc] using huw
        injection h5
    · have hd2 : p d = false := by simpa using hd
      rw [List.dropWhile_cons_of_neg (by simp [hd2])]
      exact h

/-- A non-whitespace-delimited token survives `strip`: the mention token
starts with `'<'` and ends with `'>'`, so stripping whitespace from both
ends of a string cannot destroy an occurrence of it. -/
lemma mention_infix_stripL (cfg : Config) (s : List Char)
    (h : mentionTok cfg <:+: s) : mentionTok cfg <:+: stripL s := by
  have hshape : mentionTok cfg = '<' :: ('@' :: cfg.botId ++ ['>']) := by
    simp [mentionTok]
  have h1 : mentionTok cfg <:+: s.dropWhile Char.isWhitespace := by
    rw [hshape] at h ⊢
    exact infix_dropWhile Char.isWhitespace '<' _ (by decide) s h
  have h2 : (mentionTok cfg).reverse <:+: (s.dropWhile Char.isWhitespace).reverse :=
    List.reverse_infix.mpr h1
  have h3 : (mentionTok cfg).reverse = '>' :: ('<' :: '@' :: cfg.botId).reverse := by
    simp [mentionTok]
  rw [h3] at h2
  have h4 := infix_dropWhile Char.isWhitespace '>' _ (by decide) _ h2
  rw [← h3] at h4
  rw [← List.reverse_reverse (((s.dropWhile Char.isWhitespace).reverse.dropWhile
    Char.isWhitespace))] at h4
  exact List.reverse_infix.mp h4

lemma handleContent_sent_ne (cfg : Config) (st : BotState) (m : Msg)
    (contentRaw : List Char) : (handleContent cfg st m contentRaw).2.sent ≠ [] := by
  unfold handleContent newchatRes
  split_ifs <;> simp [Effects.app, sentOnly, stopEff, peff_sent]

/-- C10: with the author not the bot itself, the bot reacts iff the literal
mention token `f"<@{BOT_ID}>"` occurs anywhere in the raw content (reacting
= dispatching on the extracted text, which always sends at least one
message; otherwise state and effects are untouched).  The processed request
text is the stripped substring after the *first* `'>'` of the raw content;
consequently, when another `'>'` (e.g. another mention) precedes the bot
mention, the extracted text still contains the bot-mention token itself. -/
theorem mention_gating (cfg : Config) (st : BotState) (m : Msg)
    (hself : m.fromSelf = false) :
    (¬(mentionTok cfg <:+: m.content) → onMessage cfg st m = (st, noEffects)) ∧
    (mentionTok cfg <:+: m.content →
      onMessage cfg st m = handleContent cfg st m (stripL (afterFirstGt m.content)) ∧
      (onMessage cfg st m).2.sent ≠ []) ∧
    (∀ a b, m.content = a ++ '>' :: b → '>' ∉ a →
      afterFirstGt m.content = b ∧
      (mentionTok cfg <:+: b → mentionTok cfg <:+: stripL (afterFirstGt m.content))) := by
  refine ⟨?_, ?_, ?_⟩
  · intro hni
    unfold onMessage
    rw [if_neg (by simp [hself]), if_neg hni]
  · intro hin
    unfold onMessage
    rw [if_neg (by simp [hself]), if_pos hin]
    exact ⟨rfl, handleContent_sent_ne cfg st m _⟩
  · intro a b hab ha
    have hafg : afterFirstGt m.content = b := by
      rw [hab]; exact afterFirstGt_append a b ha
    refine ⟨hafg, fun hb => ?_⟩
    rw [hafg]
    exact mention_infix_stripL cfg b hb

/-- Witness for `mention_gating`: in "<@9> x <@1> hi" with bot id "1",
another mention precedes the bot mention; the extracted text is everything
after the *first* `'>'` and still contains "<@1>"; the bot reacts. -/
theorem mention_gating_witness :
    afterFirstGt "<@9> x <@1> hi".toList = " x <@1> hi".toList ∧
    mentionTok ⟨"1".toList, "yoru".toList, ["own".toList, "yoru".toList]⟩ <:+:
      stripL (afterFirstGt "<@9> x <@1> hi".toList) ∧
    (onMessage ⟨"1".toList, "yoru".toList, ["own".toList, "yoru".toList]⟩
      ⟨[], ∅, [], false, none, none, false⟩
      ⟨"<@9> x <@1> hi".toList, "bob".toList, 42, false, false⟩).2.sent ≠ [] := by
  have h := mention_gating ⟨"1".toList, "yoru".toList, ["own".toList, "yoru".toList]⟩
    ⟨[], ∅, [], false, none, none, false⟩
    ⟨"<@9> x <@1> hi".toList, "bob".toList, 42, false, false⟩ rfl
  have h3 := h.2.2 "<@9".toList " x <@1> hi".toList (by decide) (by decide)
  exact ⟨h3.1, h3.1 ▸ h3.2 (by decide), (h.2.1 (by decide)).2⟩

end Vito
